import Mathlib

/-!
Shallow embedding of the Browser-AI-Agent repository (src/unnamed/part_000,
`index.ts`): the action-instruction interpreter `runBrowserAgent`, the
refinement helper `refineUICode`, and the top-level driver.

External collaborators are modelled as oracles:
  * the browser page (Playwright) is a `Browser` structure of functions whose
    fallible calls return `Except String`;
  * the OpenAI chat completion used by `refineUICode` is a function
    `String → Option String` from the prompt to the (possibly missing)
    message content — `none` models a response whose
    `choices[0].message.content` chain is absent;
  * at the interpreter level the whole Refinement Provider
    (`refineUICode`) is a total function `String → String → String`,
    since `refineUICode` never throws on format errors (it falls back to `""`).

Side effects (browser calls, `fs.writeFileSync`, `console.warn`, the final
screenshot, the top-level `console.error`) are recorded in an event trace.
JavaScript truthiness of the string-valued fields consulted by the code
(`details.selector`, `details.text`, `details.refinement`, `currentUIcode`)
is modelled as "present and non-empty".
-/

/-- The dynamic `details` payload of a step: a JSON-ish value.  Only the
three object fields the source consults are modelled. `null` is kept
separate because in JavaScript `typeof null === "object"` yet reading a
property of `null` throws. -/
inductive Details where
  | str (s : String)
  | num (n : Int)
  | obj (selector text refinement : Option String)
  | null
  deriving DecidableEq

/-- One instruction: `{ action, details }`. -/
structure Step where
  action : String
  details : Details
  deriving DecidableEq

/-- The interpreter's mutable run state: the outer-scope variables
`currentUIcode` and `iterationCount` of `runBrowserAgent`. -/
structure RunState where
  currentUIcode : String
  iterationCount : Nat
  deriving DecidableEq

/-- Trace events: every browser-facade call, provider call, file write and
warning the source performs, in order. -/
inductive Event where
  | goto (d : Details)
  | fill (sel text : String)
  | click (d : Details)
  | waitTimeout (ms : Option Int)
  | extracted (d : Details) (code : String)
  | extractFailed (d : Details)
  | refineCall (code instr : String)
  | writeFile (name content : String)
  | warn (msg : String)
  | screenshot (p : String)
  | errorLog (msg : String)
  deriving DecidableEq

/-- The Browser Session Facade (one Playwright page).  Calls that the source
awaits and that can reject are `Except`-valued; the payload is passed raw
(`page.goto(details)`, `page.locator(details)`, `page.waitForSelector(details)`)
exactly as the source does. `extract` bundles `waitForSelector` + `innerHTML`. -/
structure Browser where
  goto : Details → Except String Unit
  fill : String → String → Except String Unit
  click : Details → Except String Unit
  extract : Details → Except String String

/-- JS truthiness of an optional string-valued object field: the field is
present and not the empty string. -/
def truthyStr : Option String → Bool
  | some s => s ≠ ""
  | none => false

/-- Model of JavaScript `parseInt` (radix 10, no hex-prefix handling):
skip leading whitespace, optional sign, then a maximal run of digits;
`none` models `NaN`.  A number input is stringified first, which for an
integer gives the integer back; objects and `null` stringify to
non-numeric text, hence `NaN`. -/
def jsParseInt : Details → Option Int
  | .num n => some n
  | .obj _ _ _ => none
  | .null => none
  | .str s =>
    let cs := s.data.dropWhile (fun c => c == ' ' || c == '\t' || c == '\n' || c == '\r')
    let signDigits : Bool × List Char :=
      match cs with
      | '-' :: rest => (true, rest)
      | '+' :: rest => (false, rest)
      | _ => (false, cs)
    let ds := signDigits.2.takeWhile Char.isDigit
    if ds.isEmpty then none
    else
      let v : Nat := ds.foldl (fun a c => 10 * a + (c.toNat - 48)) 0
      some (if signDigits.1 then -(v : Int) else (v : Int))

/-- Little-endian decimal digit characters of `n`, with structural fuel
(mirroring how a decimal numeral is produced by repeated `% 10` / `/ 10`). -/
def digitsRevFuel : Nat → Nat → List Char
  | 0, _ => []
  | f + 1, n =>
    if n < 10 then [Char.ofNat (48 + n)]
    else Char.ofNat (48 + n % 10) :: digitsRevFuel f (n / 10)

/-- Decimal rendering of a natural number (the model of the JavaScript
template-literal interpolation of a number). -/
def natRepr (n : Nat) : String :=
  String.mk (digitsRevFuel (n + 1) n).reverse

/-- Filename of the artifact written by refinement iteration `n`:
`refined_ui_iteration_${n}.html`. -/
def refinedName (n : Nat) : String :=
  "refined_ui_iteration_" ++ natRepr n ++ ".html"

/-- The prompt `refineUICode` builds from the current code and the
refinement instruction. -/
def refinePrompt (currentCode refinementInstructions : String) : String :=
  "You are an expert UI developer. You are given the following UI code:\n\n" ++
    currentCode ++ "\n\n" ++
    "Improve the code based on the following instruction: \x22" ++
    refinementInstructions ++ "\x22. " ++
    "Return only the updated code."

/-- `refineUICode(currentCode, refinementInstructions)`: sends the prompt to
the chat oracle and returns `content.trim()`, falling back to `""` when the
response structure lacks a content (the `?? ""` in the source). -/
def refineUICode (chat : String → Option String)
    (currentCode refinementInstructions : String) : String :=
  ((chat (refinePrompt currentCode refinementInstructions)).map String.trim).getD ""

/-- One iteration of the `for (const step of instructions)` loop of
`runBrowserAgent`: executes `step` in state `st`, returning the events it
emits and either the next state or the thrown error. -/
def execStep (B : Browser) (F : String → String → String)
    (st : RunState) (s : Step) : List Event × Except String RunState :=
  if s.action = "navigate" then
    match B.goto s.details with
    | .ok _ => ([.goto s.details, .waitTimeout (some 2000)], .ok st)
    | .error e => ([.goto s.details], .error e)
  else if s.action = "type" then
    match s.details with
    | .obj sel text _ =>
      if truthyStr sel && truthyStr text then
        match B.fill (sel.getD "") (text.getD "") with
        | .ok _ => ([.fill (sel.getD "") (text.getD ""), .waitTimeout (some 1000)], .ok st)
        | .error e => ([.fill (sel.getD "") (text.getD "")], .error e)
      else ([.warn "Invalid details for type action"], .ok st)
    | .null => ([], .error "TypeError: Cannot read properties of null")
    | _ => ([.warn "Invalid details for type action"], .ok st)
  else if s.action = "click" then
    match B.click s.details with
    | .ok _ => ([.click s.details, .waitTimeout (some 2000)], .ok st)
    | .error e => ([.click s.details], .error e)
  else if s.action = "wait" then
    ([.waitTimeout (jsParseInt s.details)], .ok st)
  else if s.action = "extractCode" then
    match B.extract s.details with
    | .ok code =>
      ([.extracted s.details code, .writeFile "extracted_ui.html" code],
       .ok { st with currentUIcode := code })
    | .error e => ([.extractFailed s.details], .error e)
  else if s.action = "refineCode" then
    if st.currentUIcode ≠ "" then
      match s.details with
      | .obj _ _ ref =>
        if truthyStr ref then
          let refined := F st.currentUIcode (ref.getD "")
          ([.refineCall st.currentUIcode (ref.getD ""),
            .writeFile (refinedName (st.iterationCount + 1)) refined],
           .ok ⟨refined, st.iterationCount + 1⟩)
        else ([.warn "Invalid details for refineCode action"], .ok st)
      | .null => ([], .error "TypeError: Cannot read properties of null")
      | _ => ([.warn "Invalid details for refineCode action"], .ok st)
    else ([.warn "No UI code available to refine. Use extractCode first."], .ok st)
  else ([.warn "Unknown action"], .ok st)

/-- The interpreter loop: executes the steps in order, stopping at the first
thrown error (which aborts the remaining steps). -/
def runSteps (B : Browser) (F : String → String → String) :
    List Step → RunState → List Event × Except String RunState
  | [], st => ([], .ok st)
  | s :: rest, st =>
    match execStep B F st s with
    | (evs, .ok st') =>
      ((evs ++ (runSteps B F rest st').1), (runSteps B F rest st').2)
    | (evs, .error e) => (evs, .error e)

/-- `runBrowserAgent`: obtain the instruction list (an `Except`, since
`generateInstructions` throws on unparsable LLM output), run the interpreter
from the fresh state `⟨"", 0⟩`, and on success take the final screenshot. -/
def runBrowserAgent (gen : Except String (List Step)) (B : Browser)
    (F : String → String → String) : List Event × Except String RunState :=
  match gen with
  | .error e => ([], .error e)
  | .ok instructions =>
    match runSteps B F instructions ⟨"", 0⟩ with
    | (evs, .ok st) => (evs ++ [.screenshot "final_ui.png"], .ok st)
    | (evs, .error e) => (evs, .error e)

/-- The top level: `runBrowserAgent(userCommand).catch(err => console.error(...))`.
The catch handler only logs; the Node process then exits normally, so the
exit status is `0` whether or not the run failed. -/
def runDriver (gen : Except String (List Step)) (B : Browser)
    (F : String → String → String) : List Event × Nat :=
  match runBrowserAgent gen B F with
  | (evs, .ok _) => (evs, 0)
  | (evs, .error e) => (evs ++ [.errorLog e], 0)

/-- Names of all files written during a trace, in order. -/
def writeNames : List Event → List String
  | [] => []
  | .writeFile n _ :: rest => n :: writeNames rest
  | _ :: rest => writeNames rest

/-- Names of the refinement artifacts written during a trace (every file
write other than the fixed extraction file). -/
def refinedWrites (evs : List Event) : List String :=
  (writeNames evs).filter (fun n => n ≠ "extracted_ui.html")

/-- Contents successively written to the fixed extraction file
`extracted_ui.html`, in order. -/
def extractWrites : List Event → List String
  | [] => []
  | .writeFile n c :: rest =>
    if n = "extracted_ui.html" then c :: extractWrites rest else extractWrites rest
  | _ :: rest => extractWrites rest

/-- Codes returned by the successful `extractCode` steps of a trace. -/
def extractedCodes : List Event → List String
  | [] => []
  | .extracted _ c :: rest => c :: extractedCodes rest
  | _ :: rest => extractedCodes rest

/-- Number of calls made to the Refinement Provider in a trace. -/
def countRefineCalls : List Event → Nat
  | [] => 0
  | .refineCall _ _ :: rest => countRefineCalls rest + 1
  | _ :: rest => countRefineCalls rest

/-- Number of `refineCode` steps in an instruction list. -/
def countRefine : List Step → Nat
  | [] => 0
  | s :: rest => (if s.action == "refineCode" then 1 else 0) + countRefine rest

/-- Well-formedness of a step, following the per-action `details` shapes of
the spec's table (for object payloads, the fields the code checks must be
truthy). -/
def wellFormed (s : Step) : Bool :=
  if s.action = "navigate" then
    match s.details with
    | .str _ => true
    | _ => false
  else if s.action = "type" then
    match s.details with
    | .obj sel text _ => truthyStr sel && truthyStr text
    | _ => false
  else if s.action = "click" then
    match s.details with
    | .str _ => true
    | _ => false
  else if s.action = "wait" then (jsParseInt s.details).isSome
  else if s.action = "extractCode" then
    match s.details with
    | .str _ => true
    | _ => false
  else if s.action = "refineCode" then
    match s.details with
    | .obj _ _ ref => truthyStr ref
    | _ => false
  else false

/-- `refinesPreceded seen steps`: every `refineCode` step in `steps` is
preceded by an `extractCode` step (`seen` records whether one has already
occurred before `steps`). -/
def refinesPreceded : Bool → List Step → Bool
  | _, [] => true
  | seen, s :: rest =>
    (if s.action == "refineCode" then seen else true) &&
      refinesPreceded (seen || s.action == "extractCode") rest

/-- The artifact names of `k` consecutive refinement iterations after `a`
prior ones: `refinedName (a+1), …, refinedName (a+k)`. -/
def iterNames : Nat → Nat → List String
  | _, 0 => []
  | a, k + 1 => refinedName (a + 1) :: iterNames (a + 1) k

/-- A browser oracle on which every call succeeds and every extraction
returns the fixed non-empty markup. -/
def Bok : Browser :=
  ⟨fun _ => .ok (), fun _ _ => .ok (), fun _ => .ok (), fun _ => .ok "<div>UI</div>"⟩

/-- A browser oracle on which every call succeeds but every extraction
returns the empty string (an empty element). -/
def Bempty : Browser :=
  ⟨fun _ => .ok (), fun _ _ => .ok (), fun _ => .ok (), fun _ => .ok ""⟩

/-- A browser oracle whose clicks time out; everything else succeeds. -/
def Bclickfail : Browser :=
  ⟨fun _ => .ok (), fun _ _ => .ok (),
   fun _ => .error "Timeout 10000ms exceeded", fun _ => .ok "<div>UI</div>"⟩

/-- A chat oracle whose response structure never has a content (upstream
format error on every call). -/
def chatNone : String → Option String := fun _ => none

/-- A concrete Refinement Provider returning a fixed replacement. -/
def refineConst : String → String → String := fun _ _ => "<div class=\x22r\x22>UI</div>"

/-- A browser whose extractions depend on the selector (used to exercise
runs containing several `extractCode` steps). -/
def Btwo : Browser :=
  ⟨fun _ => .ok (), fun _ _ => .ok (), fun _ => .ok (),
   fun d =>
     match d with
     | .str s => if s = ".a" then .ok "<a>" else .ok "<b>"
     | _ => .ok "<b>"⟩

/-- An `extractCode` step immediately followed by a `refineCode` step. -/
def stepsExtractRefine : List Step :=
  [⟨"extractCode", .str ".ui"⟩, ⟨"refineCode", .obj none none (some "r")⟩]

/-- Two `extractCode` steps with different selectors. -/
def stepsTwoExtracts : List Step :=
  [⟨"extractCode", .str ".a"⟩, ⟨"extractCode", .str ".b"⟩]

/-- An extraction followed by two refinements. -/
def stepsOneExtractTwoRefines : List Step :=
  [⟨"extractCode", .str ".ui"⟩,
   ⟨"refineCode", .obj none none (some "r1")⟩,
   ⟨"refineCode", .obj none none (some "r2")⟩]

/-- The spec's full happy-path scenario shape. -/
def stepsScenario : List Step :=
  [⟨"navigate", .str "https://v0.dev/"⟩,
   ⟨"wait", .num 2000⟩,
   ⟨"type", .obj (some "#chat-main-textarea") (some "build a landing page") none⟩,
   ⟨"click", .str "[data-testid='prompt-form-send-button']"⟩,
   ⟨"extractCode", .str ".landing-page-ui"⟩,
   ⟨"refineCode", .obj none none (some "Add responsive design using CSS media queries.")⟩]

/-- Value of a little-endian decimal digit character list. -/
def interpRev : List Char → Nat
  | [] => 0
  | c :: cs => (c.toNat - 48) + 10 * interpRev cs

lemma charOfNat_digit_toNat : ∀ d : Nat, d < 10 → (Char.ofNat (48 + d)).toNat = 48 + d := by
  decide

lemma interpRev_digitsRevFuel : ∀ f n : Nat, n < 10 ^ f → interpRev (digitsRevFuel f n) = n := by
  intro f
  induction f with
  | zero =>
    intro n hn
    simp [Nat.pow_zero, Nat.lt_one_iff] at hn
    subst hn
    rfl
  | succ f ih =>
    intro n hn
    by_cases h10 : n < 10
    · simp [digitsRevFuel, h10, interpRev, charOfNat_digit_toNat n h10]
    · have hdiv : n / 10 < 10 ^ f := by
        have : n < 10 ^ f * 10 := by
          rw [← pow_succ]
          exact hn
        omega
      have hmod : n % 10 < 10 := Nat.mod_lt _ (by norm_num)
      simp only [digitsRevFuel, if_neg h10, interpRev,
        charOfNat_digit_toNat (n % 10) hmod, ih (n / 10) hdiv]
      omega

lemma natRepr_injective : ∀ m n : Nat, natRepr m = natRepr n → m = n := by
  intro m n h
  have hm : m < 10 ^ (m + 1) :=
    lt_of_lt_of_le (Nat.lt_pow_self (by norm_num) m)
      (Nat.pow_le_pow_right (by norm_num) (Nat.le_succ m))
  have hn : n < 10 ^ (n + 1) :=
    lt_of_lt_of_le (Nat.lt_pow_self (by norm_num) n)
      (Nat.pow_le_pow_right (by norm_num) (Nat.le_succ n))
  have hd : (digitsRevFuel (m + 1) m).reverse = (digitsRevFuel (n + 1) n).reverse :=
    congrArg String.data h
  have hd' : digitsRevFuel (m + 1) m = digitsRevFuel (n + 1) n :=
    List.reverse_injective hd
  calc m = interpRev (digitsRevFuel (m + 1) m) := (interpRev_digitsRevFuel _ _ hm).symm
    _ = interpRev (digitsRevFuel (n + 1) n) := by rw [hd']
    _ = n := interpRev_digitsRevFuel _ _ hn

lemma digitsRevFuel_ne_nil (f n : Nat) : digitsRevFuel (f + 1) n ≠ [] := by
  by_cases h10 : n < 10 <;> simp [digitsRevFuel, h10]

lemma natRepr_length_pos (n : Nat) : 0 < (natRepr n).length := by
  have := digitsRevFuel_ne_nil n n
  simp only [natRepr, String.length]
  cases hd : digitsRevFuel (n + 1) n with
  | nil => exact absurd hd this
  | cons c cs => simp [hd]

lemma refinedName_injective : ∀ m n : Nat, refinedName m = refinedName n → m = n := by
  intro m n h
  apply natRepr_injective
  have hdata : ("refined_ui_iteration_".data ++ (natRepr m).data) ++ ".html".data =
      ("refined_ui_iteration_".data ++ (natRepr n).data) ++ ".html".data := by
    have h1 := congrArg String.data h
    simpa [refinedName, String.data_append] using h1
  have h2 : (natRepr m).data = (natRepr n).data := by
    have h3 := List.append_cancel_right hdata
    exact List.append_cancel_left h3
  exact String.ext h2

lemma refinedName_ne_extracted (n : Nat) : refinedName n ≠ "extracted_ui.html" := by
  intro h
  have hlen := congrArg String.length h
  have hp := natRepr_length_pos n
  simp only [refinedName, String.length_append] at hlen
  have h21 : ("refined_ui_iteration_" : String).length = 21 := rfl
  have h5 : (".html" : String).length = 5 := rfl
  have h17 : ("extracted_ui.html" : String).length = 17 := rfl
  omega

lemma writeNames_append (a b : List Event) :
    writeNames (a ++ b) = writeNames a ++ writeNames b := by
  induction a with
  | nil => simp [writeNames]
  | cons e rest ih => cases e <;> simp [writeNames, ih]

set_option linter.unnecessarySeqFocus false in
lemma extractWrites_append (a b : List Event) :
    extractWrites (a ++ b) = extractWrites a ++ extractWrites b := by
  induction a with
  | nil => simp [extractWrites]
  | cons e rest ih =>
    cases e <;> simp [extractWrites, ih]
    rename_i n c
    split <;> simp

lemma extractedCodes_append (a b : List Event) :
    extractedCodes (a ++ b) = extractedCodes a ++ extractedCodes b := by
  induction a with
  | nil => simp [extractedCodes]
  | cons e rest ih => cases e <;> simp [extractedCodes, ih]

lemma countRefineCalls_append (a b : List Event) :
    countRefineCalls (a ++ b) = countRefineCalls a + countRefineCalls b := by
  induction a with
  | nil => simp [countRefineCalls]
  | cons e rest ih =>
    cases e <;> simp [countRefineCalls, ih]
    omega

lemma refinedWrites_append (a b : List Event) :
    refinedWrites (a ++ b) = refinedWrites a ++ refinedWrites b := by
  simp [refinedWrites, writeNames_append, List.filter_append]

lemma execStep_navigate_ok (B : Browser) (F : String → String → String)
    (st : RunState) (d : Details) (u : Unit) (hb : B.goto d = .ok u) :
    execStep B F st ⟨"navigate", d⟩ = ([.goto d, .waitTimeout (some 2000)], .ok st) := by
  simp [execStep, hb]

lemma execStep_navigate_err (B : Browser) (F : String → String → String)
    (st : RunState) (d : Details) (e : String) (hb : B.goto d = .error e) :
    execStep B F st ⟨"navigate", d⟩ = ([.goto d], .error e) := by
  simp [execStep, hb]

lemma execStep_type_ok (B : Browser) (F : String → String → String)
    (st : RunState) (sel text : String) (ref : Option String) (u : Unit)
    (hsel : sel ≠ "") (htext : text ≠ "") (hb : B.fill sel text = .ok u) :
    execStep B F st ⟨"type", .obj (some sel) (some text) ref⟩ =
      ([.fill sel text, .waitTimeout (some 1000)], .ok st) := by
  simp [execStep, truthyStr, hsel, htext, hb]

lemma execStep_click_ok (B : Browser) (F : String → String → String)
    (st : RunState) (d : Details) (u : Unit) (hb : B.click d = .ok u) :
    execStep B F st ⟨"click", d⟩ = ([.click d, .waitTimeout (some 2000)], .ok st) := by
  simp [execStep, hb]

lemma execStep_click_err (B : Browser) (F : String → String → String)
    (st : RunState) (d : Details) (e : String) (hb : B.click d = .error e) :
    execStep B F st ⟨"click", d⟩ = ([.click d], .error e) := by
  simp [execStep, hb]

lemma execStep_wait (B : Browser) (F : String → String → String)
    (st : RunState) (d : Details) :
    execStep B F st ⟨"wait", d⟩ = ([.waitTimeout (jsParseInt d)], .ok st) := by
  simp [execStep]

lemma execStep_extract_ok (B : Browser) (F : String → String → String)
    (st : RunState) (d : Details) (c : String) (hb : B.extract d = .ok c) :
    execStep B F st ⟨"extractCode", d⟩ =
      ([.extracted d c, .writeFile "extracted_ui.html" c], .ok ⟨c, st.iterationCount⟩) := by
  simp [execStep, hb]

lemma execStep_extract_err (B : Browser) (F : String → String → String)
    (st : RunState) (d : Details) (e : String) (hb : B.extract d = .error e) :
    execStep B F st ⟨"extractCode", d⟩ = ([.extractFailed d], .error e) := by
  simp [execStep, hb]

lemma execStep_refine_ok (B : Browser) (F : String → String → String)
    (st : RunState) (sel txt : Option String) (rf : String)
    (hcc : st.currentUIcode ≠ "") (hrf : rf ≠ "") :
    execStep B F st ⟨"refineCode", .obj sel txt (some rf)⟩ =
      ([.refineCall st.currentUIcode rf,
        .writeFile (refinedName (st.iterationCount + 1)) (F st.currentUIcode rf)],
       .ok ⟨F st.currentUIcode rf, st.iterationCount + 1⟩) := by
  simp [execStep, truthyStr, hcc, hrf]

lemma execStep_refine_empty (B : Browser) (F : String → String → String)
    (st : RunState) (d : Details) (hcc : st.currentUIcode = "") :
    execStep B F st ⟨"refineCode", d⟩ =
      ([.warn "No UI code available to refine. Use extractCode first."], .ok st) := by
  simp [execStep, hcc]

lemma execStep_unknown (B : Browser) (F : String → String → String)
    (st : RunState) (a : String) (d : Details)
    (h1 : a ≠ "navigate") (h2 : a ≠ "type") (h3 : a ≠ "click") (h4 : a ≠ "wait")
    (h5 : a ≠ "extractCode") (h6 : a ≠ "refineCode") :
    execStep B F st ⟨a, d⟩ = ([.warn "Unknown action"], .ok st) := by
  simp [execStep, h1, h2, h3, h4, h5, h6]

/-- Case analysis of one step: either the step does not mutate the state
(and writes no file at all and makes no provider call), or it is a
successful `extractCode`, or a successful `refineCode`. -/
lemma execStep_master (B : Browser) (F : String → String → String) (st : RunState)
    (s : Step) (evs : List Event) (r : Except String RunState)
    (h : execStep B F st s = (evs, r)) :
    (refinedWrites evs = [] ∧ countRefineCalls evs = 0 ∧
        extractWrites evs = [] ∧ extractedCodes evs = [] ∧
        ∀ st', r = .ok st' → st' = st) ∨
      (∃ c, s.action = "extractCode" ∧ B.extract s.details = .ok c ∧
        evs = [.extracted s.details c, .writeFile "extracted_ui.html" c] ∧
        r = .ok ⟨c, st.iterationCount⟩) ∨
      (∃ rf, s.action = "refineCode" ∧ st.currentUIcode ≠ "" ∧
        evs = [.refineCall st.currentUIcode rf,
          .writeFile (refinedName (st.iterationCount + 1)) (F st.currentUIcode rf)] ∧
        r = .ok ⟨F st.currentUIcode rf, st.iterationCount + 1⟩) := by
  obtain ⟨a, d⟩ := s
  by_cases h1 : a = "navigate"
  · subst h1
    rcases hb : B.goto d with e | u
    · rw [execStep_navigate_err B F st d e hb] at h
      injection h with hevs hr
      subst hevs; subst hr
      exact Or.inl ⟨rfl, rfl, rfl, rfl, fun st' h' => by cases h'⟩
    · rw [execStep_navigate_ok B F st d u hb] at h
      injection h with hevs hr
      subst hevs; subst hr
      exact Or.inl ⟨rfl, rfl, rfl, rfl, fun st' h' => by
        injection h' with h''; exact h''.symm⟩
  by_cases h2 : a = "type"
  · subst h2
    rcases d with s' | n | ⟨sel, text, ref⟩ | _
    · simp only [execStep, reduceIte] at h
      injection h with hevs hr
      subst hevs; subst hr
      exact Or.inl ⟨rfl, rfl, rfl, rfl, fun st' h' => by
        injection h' with h''; exact h''.symm⟩
    · simp only [execStep, reduceIte] at h
      injection h with hevs hr
      subst hevs; subst hr
      exact Or.inl ⟨rfl, rfl, rfl, rfl, fun st' h' => by
        injection h' with h''; exact h''.symm⟩
    · by_cases htr : (truthyStr sel && truthyStr text) = true
      · rcases hb : B.fill (sel.getD "") (text.getD "") with e | u
        · simp only [execStep, reduceIte, htr, if_true, hb] at h
          injection h with hevs hr
          subst hevs; subst hr
          exact Or.inl ⟨rfl, rfl, rfl, rfl, fun st' h' => by cases h'⟩
        · simp only [execStep, reduceIte, htr, if_true, hb] at h
          injection h with hevs hr
          subst hevs; subst hr
          exact Or.inl ⟨rfl, rfl, rfl, rfl, fun st' h' => by
            injection h' with h''; exact h''.symm⟩
      · simp only [execStep, reduceIte, htr, if_false] at h
        injection h with hevs hr
        subst hevs; subst hr
        exact Or.inl ⟨rfl, rfl, rfl, rfl, fun st' h' => by
          injection h' with h''; exact h''.symm⟩
    · simp only [execStep, reduceIte] at h
      injection h with hevs hr
      subst hevs; subst hr
      exact Or.inl ⟨rfl, rfl, rfl, rfl, fun st' h' => by cases h'⟩
  by_cases h3 : a = "click"
  · subst h3
    rcases hb : B.click d with e | u
    · rw [execStep_click_err B F st d e hb] at h
      injection h with hevs hr
      subst hevs; subst hr
      exact Or.inl ⟨rfl, rfl, rfl, rfl, fun st' h' => by cases h'⟩
    · rw [execStep_click_ok B F st d u hb] at h
      injection h with hevs hr
      subst hevs; subst hr
      exact Or.inl ⟨rfl, rfl, rfl, rfl, fun st' h' => by
        injection h' with h''; exact h''.symm⟩
  by_cases h4 : a = "wait"
  · subst h4
    rw [execStep_wait B F st d] at h
    injection h with hevs hr
    subst hevs; subst hr
    exact Or.inl ⟨rfl, rfl, rfl, rfl, fun st' h' => by
      injection h' with h''; exact h''.symm⟩
  by_cases h5 : a = "extractCode"
  · subst h5
    rcases hb : B.extract d with e | c
    · rw [execStep_extract_err B F st d e hb] at h
      injection h with hevs hr
      subst hevs; subst hr
      exact Or.inl ⟨rfl, rfl, rfl, rfl, fun st' h' => by cases h'⟩
    · rw [execStep_extract_ok B F st d c hb] at h
      injection h with hevs hr
      subst hevs; subst hr
      exact Or.inr (Or.inl ⟨c, rfl, by simp [hb], rfl, rfl⟩)
  by_cases h6 : a = "refineCode"
  · subst h6
    by_cases hcc : st.currentUIcode = ""
    · rw [execStep_refine_empty B F st d hcc] at h
      injection h with hevs hr
      subst hevs; subst hr
      exact Or.inl ⟨rfl, rfl, rfl, rfl, fun st' h' => by
        injection h' with h''; exact h''.symm⟩
    · rcases d with s' | n | ⟨sel, text, ref⟩ | _
      · simp only [execStep, reduceIte, ne_eq, hcc, not_false_eq_true, if_true] at h
        injection h with hevs hr
        subst hevs; subst hr
        exact Or.inl ⟨rfl, rfl, rfl, rfl, fun st' h' => by
          injection h' with h''; exact h''.symm⟩
      · simp only [execStep, reduceIte, ne_eq, hcc, not_false_eq_true, if_true] at h
        injection h with hevs hr
        subst hevs; subst hr
        exact Or.inl ⟨rfl, rfl, rfl, rfl, fun st' h' => by
          injection h' with h''; exact h''.symm⟩
      · by_cases htr : truthyStr ref = true
        · rcases ref with _ | rf
          · simp [truthyStr] at htr
          · rw [execStep_refine_ok B F st sel text rf hcc (by
              simpa [truthyStr] using htr)] at h
            injection h with hevs hr
            subst hevs; subst hr
            exact Or.inr (Or.inr ⟨rf, rfl, hcc, rfl, rfl⟩)
        · simp only [execStep, reduceIte, ne_eq, hcc, not_false_eq_true, if_true,
            htr, Bool.false_eq_true, if_false] at h
          injection h with hevs hr
          subst hevs; subst hr
          exact Or.inl ⟨rfl, rfl, rfl, rfl, fun st' h' => by
            injection h' with h''; exact h''.symm⟩
      · simp only [execStep, reduceIte, ne_eq, hcc, not_false_eq_true, if_true] at h
        injection h with hevs hr
        subst hevs; subst hr
        exact Or.inl ⟨rfl, rfl, rfl, rfl, fun st' h' => by cases h'⟩
  · rw [execStep_unknown B F st a d h1 h2 h3 h4 h5 h6] at h
    injection h with hevs hr
    subst hevs; subst hr
    exact Or.inl ⟨rfl, rfl, rfl, rfl, fun st' h' => by
      injection h' with h''; exact h''.symm⟩

lemma truthyStr_iff (o : Option String) :
    truthyStr o = true ↔ ∃ s, o = some s ∧ s ≠ "" := by
  cases o <;> simp [truthyStr]

lemma runSteps_cons_ok (B : Browser) (F : String → String → String)
    (s : Step) (rest : List Step) (st : RunState) (evs : List Event) (st' : RunState)
    (h : execStep B F st s = (evs, .ok st')) :
    runSteps B F (s :: rest) st =
      (evs ++ (runSteps B F rest st').1, (runSteps B F rest st').2) := by
  simp [runSteps, h]

lemma runSteps_cons_err (B : Browser) (F : String → String → String)
    (s : Step) (rest : List Step) (st : RunState) (evs : List Event) (e : String)
    (h : execStep B F st s = (evs, .error e)) :
    runSteps B F (s :: rest) st = (evs, .error e) := by
  simp [runSteps, h]

lemma runSteps_append_ok (B : Browser) (F : String → String → String)
    (as : List Step) :
    ∀ (bs : List Step) (st : RunState) (evs : List Event) (st' : RunState),
      runSteps B F as st = (evs, .ok st') →
      runSteps B F (as ++ bs) st =
        (evs ++ (runSteps B F bs st').1, (runSteps B F bs st').2) := by
  induction as with
  | nil =>
    intro bs st evs st' h
    simp only [runSteps] at h
    injection h with h1 h2
    subst h1
    injection h2 with h3
    subst h3
    simp
  | cons s rest ih =>
    intro bs st evs st' h
    rcases hp : execStep B F st s with ⟨evs1, r1⟩
    cases r1 with
    | error e =>
      rw [runSteps_cons_err B F s rest st evs1 e hp] at h
      injection h with h1 h2
      cases h2
    | ok st1 =>
      rw [runSteps_cons_ok B F s rest st evs1 st1 hp] at h
      rcases hq : runSteps B F rest st1 with ⟨evs2, r2⟩
      rw [hq] at h
      injection h with h1 h2
      subst h1
      subst h2
      rw [List.cons_append, runSteps_cons_ok B F s (rest ++ bs) st evs1 st1 hp,
        ih bs st1 evs2 st' hq]
      simp

lemma runSteps_append_err (B : Browser) (F : String → String → String)
    (as : List Step) :
    ∀ (bs : List Step) (st : RunState) (evs : List Event) (e : String),
      runSteps B F as st = (evs, .error e) →
      runSteps B F (as ++ bs) st = (evs, .error e) := by
  induction as with
  | nil =>
    intro bs st evs e h
    simp only [runSteps] at h
    injection h with h1 h2
    cases h2
  | cons s rest ih =>
    intro bs st evs e h
    rcases hp : execStep B F st s with ⟨evs1, r1⟩
    cases r1 with
    | error e1 =>
      rw [runSteps_cons_err B F s rest st evs1 e1 hp] at h
      injection h with h1 h2
      subst h1
      injection h2 with h3
      subst h3
      rw [List.cons_append]
      exact runSteps_cons_err B F s (rest ++ bs) st evs1 _ hp
    | ok st1 =>
      rw [runSteps_cons_ok B F s rest st evs1 st1 hp] at h
      rcases hq : runSteps B F rest st1 with ⟨evs2, r2⟩
      rw [hq] at h
      injection h with h1 h2
      subst h1
      subst h2
      rw [List.cons_append, runSteps_cons_ok B F s (rest ++ bs) st evs1 st1 hp,
        ih bs st1 evs2 e hq]

lemma mem_iterNames (s : String) :
    ∀ (k a : Nat), s ∈ iterNames a k → ∃ j, a < j ∧ j ≤ a + k ∧ s = refinedName j := by
  intro k
  induction k with
  | zero => intro a h; simp [iterNames] at h
  | succ k ih =>
    intro a h
    rw [iterNames] at h
    rcases List.mem_cons.mp h with h1 | h1
    · exact ⟨a + 1, by omega, by omega, h1⟩
    · obtain ⟨j, hj1, hj2, hj3⟩ := ih (a + 1) h1
      exact ⟨j, by omega, by omega, hj3⟩

lemma iterNames_nodup : ∀ (k a : Nat), (iterNames a k).Nodup := by
  intro k
  induction k with
  | zero => intro a; simp [iterNames]
  | succ k ih =>
    intro a
    rw [iterNames, List.nodup_cons]
    refine ⟨fun hmem => ?_, ih (a + 1)⟩
    obtain ⟨j, hj1, hj2, hj3⟩ := mem_iterNames _ _ _ hmem
    have := refinedName_injective _ _ hj3
    omega

/-- Run-level artifact/counter invariant: along any execution the refinement
artifacts written are named `refined_ui_iteration_(a+1) … refined_ui_iteration_(a+n)`
(where `a` is the starting iteration count and `n` the number of provider
calls), the writes to `extracted_ui.html` are exactly the successfully
extracted codes, and on success the final count is `a + n`. -/
lemma runSteps_writes (B : Browser) (F : String → String → String) :
    ∀ (steps : List Step) (st : RunState) (evs : List Event) (r : Except String RunState),
      runSteps B F steps st = (evs, r) →
      ∃ n, refinedWrites evs = iterNames st.iterationCount n ∧
        countRefineCalls evs = n ∧
        extractWrites evs = extractedCodes evs ∧
        ∀ st', r = .ok st' → st'.iterationCount = st.iterationCount + n := by
  intro steps
  induction steps with
  | nil =>
    intro st evs r h
    simp only [runSteps] at h
    injection h with h1 h2
    subst h1
    subst h2
    exact ⟨0, rfl, rfl, rfl, fun st' h' => by
      injection h' with h''; rw [← h'']; omega⟩
  | cons s rest ih =>
    intro st evs r h
    rcases hp : execStep B F st s with ⟨evs1, r1⟩
    cases r1 with
    | error e =>
      rw [runSteps_cons_err B F s rest st evs1 e hp] at h
      injection h with h1 h2
      subst h1
      subst h2
      rcases execStep_master B F st s evs1 (.error e) hp with hA | hB | hC
      · obtain ⟨ha1, ha2, ha3, ha4, _⟩ := hA
        exact ⟨0, ha1, ha2, by rw [ha3, ha4], fun st' h' => by cases h'⟩
      · obtain ⟨c, _, _, _, hr1⟩ := hB
        cases hr1
      · obtain ⟨rf, _, _, _, hr1⟩ := hC
        cases hr1
    | ok st1 =>
      rw [runSteps_cons_ok B F s rest st evs1 st1 hp] at h
      rcases hq : runSteps B F rest st1 with ⟨evs2, r2⟩
      rw [hq] at h
      injection h with h1 h2
      subst h1
      subst h2
      obtain ⟨n, hrw, hcnt, hext, hfin⟩ := ih st1 evs2 r2 hq
      rcases execStep_master B F st s evs1 (.ok st1) hp with hA | hB | hC
      · obtain ⟨ha1, ha2, ha3, ha4, ha5⟩ := hA
        have hst1 : st1 = st := ha5 st1 rfl
        subst hst1
        refine ⟨n, ?_, ?_, ?_, ?_⟩
        · rw [refinedWrites_append, ha1, hrw]
          simp
        · rw [countRefineCalls_append, ha2, hcnt]
          omega
        · rw [extractWrites_append, extractedCodes_append, ha3, ha4, hext]
        · exact fun st' h' => hfin st' h'
      · obtain ⟨c, hact, hbx, hevs1, hr1⟩ := hB
        injection hr1 with hst1
        subst hevs1
        have hic : st1.iterationCount = st.iterationCount := by rw [hst1]
        refine ⟨n, ?_, ?_, ?_, ?_⟩
        · rw [refinedWrites_append, hrw, hic]
          simp [refinedWrites, writeNames]
        · rw [countRefineCalls_append, hcnt]
          simp [countRefineCalls]
        · rw [extractWrites_append, extractedCodes_append, hext]
          simp [extractWrites, extractedCodes]
        · intro st' h'
          rw [hfin st' h', hic]
      · obtain ⟨rf, hact, hcc, hevs1, hr1⟩ := hC
        injection hr1 with hst1
        subst hevs1
        have hic : st1.iterationCount = st.iterationCount + 1 := by rw [hst1]
        refine ⟨n + 1, ?_, ?_, ?_, ?_⟩
        · rw [refinedWrites_append, hrw, hic, iterNames]
          simp [refinedWrites, writeNames, refinedName_ne_extracted]
        · rw [countRefineCalls_append, hcnt]
          simp [countRefineCalls]
          omega
        · rw [extractWrites_append, extractedCodes_append, hext]
          simp [extractWrites, extractedCodes, refinedName_ne_extracted]
        · intro st' h'
          rw [hfin st' h', hic]
          omega

/-- Frame lemma: a step that is not an `extractCode`, and that is not a
`refineCode` executed with non-empty `currentUIcode`, leaves the run state
unchanged whenever it completes normally. -/
lemma execStep_frame (B : Browser) (F : String → String → String)
    (st : RunState) (s : Step) (evs : List Event) (r : Except String RunState)
    (hx : s.action ≠ "extractCode")
    (hrc : s.action = "refineCode" → st.currentUIcode = "")
    (h : execStep B F st s = (evs, r)) :
    ∀ st', r = .ok st' → st' = st := by
  rcases execStep_master B F st s evs r h with hA | hB | hC
  · exact hA.2.2.2.2
  · exact absurd hB.choose_spec.1 hx
  · obtain ⟨rf, hact, hcc, _, _⟩ := hC
    exact absurd (hrc hact) hcc

/-- A prefix containing no `extractCode` step, started with empty
`currentUIcode`, leaves the state exactly as it was. -/
lemma runSteps_noExtract (B : Browser) (F : String → String → String) :
    ∀ (pre : List Step) (st : RunState) (evs : List Event) (st' : RunState),
      st.currentUIcode = "" →
      (∀ s ∈ pre, s.action ≠ "extractCode") →
      runSteps B F pre st = (evs, .ok st') → st' = st := by
  intro pre
  induction pre with
  | nil =>
    intro st evs st' _ _ h
    simp only [runSteps] at h
    injection h with h1 h2
    injection h2 with h3
    exact h3.symm
  | cons s rest ih =>
    intro st evs st' hcc hne h
    rcases hp : execStep B F st s with ⟨evs1, r1⟩
    cases r1 with
    | error e =>
      rw [runSteps_cons_err B F s rest st evs1 e hp] at h
      injection h with h1 h2
      cases h2
    | ok st1 =>
      have hst1 : st1 = st :=
        execStep_frame B F st s evs1 (.ok st1) (hne s (List.mem_cons_self s rest))
          (fun _ => hcc) hp st1 rfl
      rw [runSteps_cons_ok B F s rest st evs1 st1 hp] at h
      rcases hq : runSteps B F rest st1 with ⟨evs2, r2⟩
      rw [hq] at h
      injection h with h1 h2
      subst h1
      subst h2
      have hrec := ih st1 evs2 st' (by rw [hst1]; exact hcc)
        (fun x hx => hne x (List.mem_cons_of_mem s hx)) hq
      exact hrec.trans hst1

/-- Success of a well-formed run: with a browser on which no call fails,
every extraction yielding non-empty markup and a provider always returning
non-empty code, a list of well-formed steps whose `refineCode` steps are all
preceded by an `extractCode` executes without throwing and adds one
iteration per `refineCode` step. -/
lemma runSteps_wellFormed_ok (B : Browser) (F : String → String → String)
    (hg : ∀ d, ∃ u, B.goto d = .ok u)
    (hf : ∀ s t, ∃ u, B.fill s t = .ok u)
    (hc : ∀ d, ∃ u, B.click d = .ok u)
    (he : ∀ d, ∃ c, B.extract d = .ok c ∧ c ≠ "")
    (hr : ∀ c r, F c r ≠ "") :
    ∀ (steps : List Step) (seen : Bool) (st : RunState),
      (∀ s ∈ steps, wellFormed s = true) →
      refinesPreceded seen steps = true →
      (seen = true → st.currentUIcode ≠ "") →
      ∃ evs st', runSteps B F steps st = (evs, .ok st') ∧
        st'.iterationCount = st.iterationCount + countRefine steps := by
  intro steps
  induction steps with
  | nil =>
    intro seen st _ _ _
    exact ⟨[], st, rfl, by simp [countRefine]⟩
  | cons s rest ih =>
    intro seen st hwf hdep hinv
    obtain ⟨a, d⟩ := s
    have hwfh : wellFormed ⟨a, d⟩ = true := hwf _ (List.mem_cons_self _ _)
    have hwft : ∀ x ∈ rest, wellFormed x = true :=
      fun x hx => hwf x (List.mem_cons_of_mem _ hx)
    rw [refinesPreceded, Bool.and_eq_true] at hdep
    obtain ⟨hdep1, hdep2⟩ := hdep
    by_cases h1 : a = "navigate"
    · subst h1
      obtain ⟨u, hb⟩ := hg d
      obtain ⟨evs2, st', hrun, hcount⟩ := ih seen st hwft (by simpa using hdep2) hinv
      refine ⟨[Event.goto d, Event.waitTimeout (some 2000)] ++ evs2, st', ?_, ?_⟩
      · rw [runSteps_cons_ok B F _ rest st _ st (execStep_navigate_ok B F st d u hb), hrun]
      · rw [hcount]
        simp [countRefine]
    by_cases h2 : a = "type"
    · subst h2
      rcases d with s' | nn | ⟨sel, text, ref⟩ | _
      · simp [wellFormed] at hwfh
      · simp [wellFormed] at hwfh
      · rcases sel with _ | s1
        · simp [wellFormed, truthyStr] at hwfh
        rcases text with _ | t1
        · simp [wellFormed, truthyStr] at hwfh
        simp [wellFormed, truthyStr] at hwfh
        obtain ⟨hs1, ht1⟩ := hwfh
        obtain ⟨u, hb⟩ := hf s1 t1
        obtain ⟨evs2, st', hrun, hcount⟩ := ih seen st hwft (by simpa using hdep2) hinv
        refine ⟨[Event.fill s1 t1, Event.waitTimeout (some 1000)] ++ evs2, st', ?_, ?_⟩
        · rw [runSteps_cons_ok B F _ rest st _ st
            (execStep_type_ok B F st s1 t1 ref u hs1 ht1 hb), hrun]
        · rw [hcount]
          simp [countRefine]
      · simp [wellFormed] at hwfh
    by_cases h3 : a = "click"
    · subst h3
      obtain ⟨u, hb⟩ := hc d
      obtain ⟨evs2, st', hrun, hcount⟩ := ih seen st hwft (by simpa using hdep2) hinv
      refine ⟨[Event.click d, Event.waitTimeout (some 2000)] ++ evs2, st', ?_, ?_⟩
      · rw [runSteps_cons_ok B F _ rest st _ st (execStep_click_ok B F st d u hb), hrun]
      · rw [hcount]
        simp [countRefine]
    by_cases h4 : a = "wait"
    · subst h4
      obtain ⟨evs2, st', hrun, hcount⟩ := ih seen st hwft (by simpa using hdep2) hinv
      refine ⟨[Event.waitTimeout (jsParseInt d)] ++ evs2, st', ?_, ?_⟩
      · rw [runSteps_cons_ok B F _ rest st _ st (execStep_wait B F st d), hrun]
      · rw [hcount]
        simp [countRefine]
    by_cases h5 : a = "extractCode"
    · subst h5
      obtain ⟨c, hb, hcne⟩ := he d
      obtain ⟨evs2, st', hrun, hcount⟩ :=
        ih true ⟨c, st.iterationCount⟩ hwft (by simpa using hdep2) (fun _ => hcne)
      refine ⟨[Event.extracted d c, Event.writeFile "extracted_ui.html" c] ++ evs2, st',
        ?_, ?_⟩
      · rw [runSteps_cons_ok B F _ rest st _ ⟨c, st.iterationCount⟩
          (execStep_extract_ok B F st d c hb), hrun]
      · rw [hcount]
        simp [countRefine]
    by_cases h6 : a = "refineCode"
    · subst h6
      have hseen : seen = true := by simpa using hdep1
      have hcc : st.currentUIcode ≠ "" := hinv hseen
      rcases d with s' | nn | ⟨sel, text, ref⟩ | _
      · simp [wellFormed] at hwfh
      · simp [wellFormed] at hwfh
      · rcases ref with _ | rf
        · simp [wellFormed, truthyStr] at hwfh
        simp [wellFormed, truthyStr] at hwfh
        obtain ⟨evs2, st', hrun, hcount⟩ :=
          ih true ⟨F st.currentUIcode rf, st.iterationCount + 1⟩ hwft
            (by rw [hseen] at hdep2; simpa using hdep2)
            (fun _ => hr st.currentUIcode rf)
        refine ⟨[Event.refineCall st.currentUIcode rf,
          Event.writeFile (refinedName (st.iterationCount + 1)) (F st.currentUIcode rf)] ++
            evs2, st', ?_, ?_⟩
        · rw [runSteps_cons_ok B F _ rest st _ ⟨F st.currentUIcode rf, st.iterationCount + 1⟩
            (execStep_refine_ok B F st sel text rf hcc hwfh), hrun]
        · rw [hcount]
          simp [countRefine]
          omega
      · simp [wellFormed] at hwfh
    · simp [wellFormed, h1, h2, h3, h4, h5, h6] at hwfh

/-- Claim C2: a `refineCode` step that occurs before any `extractCode` step
is a no-op: the state reached by the prefix is still the fresh state
`⟨"", 0⟩` (so `currentCode` stays empty and `iterationCount` is unchanged),
the step emits only a warning (no artifact write, no Refinement Provider
call), and execution continues with the next step from the same state. -/
theorem c2_refine_before_extract_noop (B : Browser) (F : String → String → String)
    (pre rest : List Step) (d : Details) (evs : List Event) (st : RunState)
    (hne : ∀ s ∈ pre, s.action ≠ "extractCode")
    (hpre : runSteps B F pre ⟨"", 0⟩ = (evs, .ok st)) :
    st = ⟨"", 0⟩ ∧
      runSteps B F (pre ++ ⟨"refineCode", d⟩ :: rest) ⟨"", 0⟩ =
        (evs ++ Event.warn "No UI code available to refine. Use extractCode first." ::
            (runSteps B F rest st).1,
          (runSteps B F rest st).2) := by
  have hst : st = ⟨"", 0⟩ := runSteps_noExtract B F pre ⟨"", 0⟩ evs st rfl hne hpre
  refine ⟨hst, ?_⟩
  have hcc : st.currentUIcode = "" := by rw [hst]
  have hstep := execStep_refine_empty B F st d hcc
  rw [runSteps_append_ok B F pre (⟨"refineCode", d⟩ :: rest) ⟨"", 0⟩ evs st hpre,
    runSteps_cons_ok B F ⟨"refineCode", d⟩ rest st _ st hstep]
  simp

/-- Witness for C2 at a concrete run: a `navigate`-only prefix, then a
`refineCode` step, on the all-succeeding browser. -/
theorem c2_refine_before_extract_noop_witness :
    (⟨"", 0⟩ : RunState) = ⟨"", 0⟩ ∧
      runSteps Bok refineConst
          ([⟨"navigate", .str "https://v0.dev/"⟩] ++
            ⟨"refineCode", .obj none none (some "r")⟩ :: []) ⟨"", 0⟩ =
        ([Event.goto (.str "https://v0.dev/"), Event.waitTimeout (some 2000)] ++
            Event.warn "No UI code available to refine. Use extractCode first." ::
              (runSteps Bok refineConst [] ⟨"", 0⟩).1,
          (runSteps Bok refineConst [] ⟨"", 0⟩).2) :=
  c2_refine_before_extract_noop Bok refineConst [⟨"navigate", .str "https://v0.dev/"⟩] []
    (.obj none none (some "r"))
    [Event.goto (.str "https://v0.dev/"), Event.waitTimeout (some 2000)] ⟨"", 0⟩
    (by decide) rfl

/-- Claim C4: a `click` step whose selector does not become actionable
within the bounded timeout is fatal: the whole run's trace ends with the
failing click call, so no browser-facade or provider call is made for any
later step (and no final screenshot is taken). -/
theorem c4_click_failure_fatal (B : Browser) (F : String → String → String)
    (pre rest : List Step) (sel : String) (evs : List Event) (st : RunState) (e : String)
    (hpre : runSteps B F pre ⟨"", 0⟩ = (evs, .ok st))
    (hclick : B.click (.str sel) = .error e) :
    runBrowserAgent (.ok (pre ++ ⟨"click", .str sel⟩ :: rest)) B F =
      (evs ++ [Event.click (.str sel)], .error e) := by
  have h1 : runSteps B F (⟨"click", .str sel⟩ :: rest) st =
      ([Event.click (.str sel)], .error e) :=
    runSteps_cons_err B F _ rest st _ e (execStep_click_err B F st _ e hclick)
  have h2 := runSteps_append_ok B F pre (⟨"click", .str sel⟩ :: rest) ⟨"", 0⟩ evs st hpre
  rw [h1] at h2
  simp only [runBrowserAgent, h2]

/-- Witness for C4: a concrete run on the timing-out-click browser with a
later `navigate` step that is consequently never reached. -/
theorem c4_click_failure_fatal_witness :
    runBrowserAgent (.ok ([] ++ ⟨"click", .str ".btn"⟩ :: [⟨"navigate", .str "x"⟩]))
        Bclickfail refineConst =
      ([] ++ [Event.click (.str ".btn")], .error "Timeout 10000ms exceeded") :=
  c4_click_failure_fatal Bclickfail refineConst [] [⟨"navigate", .str "x"⟩] ".btn"
    [] ⟨"", 0⟩ "Timeout 10000ms exceeded" rfl rfl

/-- Claim C8: a `wait` step whose `details` does not parse as a number
degrades to a no-op: the interpreter does not throw, the run state is
unchanged, and execution continues with the next step (only a NaN-duration
`waitForTimeout` call is made). -/
theorem c8_nonnumeric_wait_noop (B : Browser) (F : String → String → String)
    (st : RunState) (d : Details) (rest : List Step)
    (h : jsParseInt d = none) :
    runSteps B F (⟨"wait", d⟩ :: rest) st =
      (Event.waitTimeout none :: (runSteps B F rest st).1,
        (runSteps B F rest st).2) := by
  rw [runSteps_cons_ok B F _ rest st _ st (execStep_wait B F st d), h]
  simp

/-- Witness for C8 at the non-numeric duration `"soon"`. -/
theorem c8_nonnumeric_wait_noop_witness :
    runSteps Bok refineConst [⟨"wait", .str "soon"⟩] ⟨"", 0⟩ =
      (Event.waitTimeout none :: (runSteps Bok refineConst [] ⟨"", 0⟩).1,
        (runSteps Bok refineConst [] ⟨"", 0⟩).2) :=
  c8_nonnumeric_wait_noop Bok refineConst ⟨"", 0⟩ (.str "soon") [] (by decide)

/-- Claim C10 (frame property): any step other than `extractCode` and
`refineCode` — `navigate`, `wait`, `type`, `click` or an unrecognized
action — leaves the run state unchanged whenever it completes normally. -/
theorem c10_non_extract_refine_frame (B : Browser) (F : String → String → String)
    (s : Step) (st : RunState) (evs : List Event) (st' : RunState)
    (h1 : s.action ≠ "extractCode") (h2 : s.action ≠ "refineCode")
    (h : execStep B F st s = (evs, .ok st')) : st' = st :=
  execStep_frame B F st s evs (.ok st') h1 (fun hr => absurd hr h2) h st' rfl

/-- Witness for C10 at a concrete `navigate` step. -/
theorem c10_non_extract_refine_frame_witness : (⟨"", 0⟩ : RunState) = ⟨"", 0⟩ :=
  c10_non_extract_refine_frame Bok refineConst ⟨"navigate", .str "https://v0.dev/"⟩
    ⟨"", 0⟩ [Event.goto (.str "https://v0.dev/"), Event.waitTimeout (some 2000)] ⟨"", 0⟩
    (by decide) (by decide) rfl

/-- Counterexample to claim C1 as stated: on a browser where no call fails
(every call returns `ok`, the extraction returning the empty markup of an
empty element), the well-formed list `extractCode; refineCode` — whose one
`refineCode` is preceded by a successful `extractCode` — runs to completion
with `iterationCount = 0`, while the list contains one `refineCode` step:
the empty extracted string is falsy, so the refinement silently no-ops. -/
theorem c1_empty_extraction_refutes :
    (∀ s ∈ stepsExtractRefine, wellFormed s = true) ∧
      refinesPreceded false stepsExtractRefine = true ∧
      (∀ d, Bempty.goto d = .ok ()) ∧
      (∀ s t, Bempty.fill s t = .ok ()) ∧
      (∀ d, Bempty.click d = .ok ()) ∧
      (∀ d, Bempty.extract d = .ok "") ∧
      runSteps Bempty refineConst stepsExtractRefine ⟨"", 0⟩ =
        ([Event.extracted (.str ".ui") "", Event.writeFile "extracted_ui.html" "",
          Event.warn "No UI code available to refine. Use extractCode first."],
          .ok ⟨"", 0⟩) ∧
      countRefine stepsExtractRefine = 1 :=
  ⟨by decide, by decide, fun _ => rfl, fun _ _ => rfl, fun _ => rfl, fun _ => rfl,
    rfl, by decide⟩

/-- Claim C1 (amended): additionally assuming every extraction yields
non-empty markup and the Refinement Provider always returns non-empty code,
a list of well-formed steps in which every `refineCode` is preceded by an
`extractCode` executes without throwing, and the final `iterationCount`
equals the number of `refineCode` steps in the list. -/
theorem c1_wellFormed_run_count (B : Browser) (F : String → String → String)
    (steps : List Step)
    (hg : ∀ d, ∃ u, B.goto d = .ok u)
    (hf : ∀ s t, ∃ u, B.fill s t = .ok u)
    (hc : ∀ d, ∃ u, B.click d = .ok u)
    (he : ∀ d, ∃ c, B.extract d = .ok c ∧ c ≠ "")
    (hr : ∀ c r, F c r ≠ "")
    (hwf : ∀ s ∈ steps, wellFormed s = true)
    (hdep : refinesPreceded false steps = true) :
    ∃ evs st', runSteps B F steps ⟨"", 0⟩ = (evs, .ok st') ∧
      st'.iterationCount = countRefine steps := by
  obtain ⟨evs, st', hrun, hcount⟩ :=
    runSteps_wellFormed_ok B F hg hf hc he hr steps false ⟨"", 0⟩ hwf hdep
      (fun h => by cases h)
  exact ⟨evs, st', hrun, by rw [hcount]; simp⟩

/-- Witness for C1 (amended) on the spec's happy-path scenario with the
all-succeeding browser. -/
theorem c1_wellFormed_run_count_witness :
    ∃ evs st', runSteps Bok refineConst stepsScenario ⟨"", 0⟩ = (evs, .ok st') ∧
      st'.iterationCount = countRefine stepsScenario :=
  c1_wellFormed_run_count Bok refineConst stepsScenario
    (fun _ => ⟨(), rfl⟩) (fun _ _ => ⟨(), rfl⟩) (fun _ => ⟨(), rfl⟩)
    (fun _ => ⟨"<div>UI</div>", rfl, by decide⟩) (fun _ _ => by simp [refineConst])
    (by decide) (by decide)

/-- Counterexample to claim C5 as stated: when the extraction (a successful
browser call) returns the empty string, the immediately following
`refineCode` step makes no Refinement Provider call at all and the
provider's would-be return value does not become `currentCode` (which stays
`""`). -/
theorem c5_empty_extraction_skips_provider :
    Bempty.extract (.str ".ui") = .ok "" ∧
      countRefineCalls (runSteps Bempty refineConst stepsExtractRefine ⟨"", 0⟩).1 = 0 ∧
      (runSteps Bempty refineConst stepsExtractRefine ⟨"", 0⟩).2 = .ok ⟨"", 0⟩ ∧
      refineConst "" "r" = "<div class=\x22r\x22>UI</div>" :=
  ⟨rfl, rfl, rfl, rfl⟩

/-- Claim C5 (amended): for an `extractCode` step that extracts a non-empty
string `c`, immediately followed by a `refineCode` step with a non-empty
refinement `R`, the interpreter passes exactly `(c, R)` to the Refinement
Provider and the provider's return value becomes the new `currentCode`
verbatim (and the run continues from that state). -/
theorem c5_roundtrip_verbatim (B : Browser) (F : String → String → String)
    (st : RunState) (sel R c : String) (o1 o2 : Option String) (rest : List Step)
    (hx : B.extract (.str sel) = .ok c) (hc : c ≠ "") (hR : R ≠ "") :
    runSteps B F
        (⟨"extractCode", .str sel⟩ :: ⟨"refineCode", .obj o1 o2 (some R)⟩ :: rest) st =
      ([.extracted (.str sel) c, .writeFile "extracted_ui.html" c,
        .refineCall c R, .writeFile (refinedName (st.iterationCount + 1)) (F c R)] ++
          (runSteps B F rest ⟨F c R, st.iterationCount + 1⟩).1,
        (runSteps B F rest ⟨F c R, st.iterationCount + 1⟩).2) := by
  rw [runSteps_cons_ok B F _ _ st _ ⟨c, st.iterationCount⟩
      (execStep_extract_ok B F st (.str sel) c hx),
    runSteps_cons_ok B F _ rest ⟨c, st.iterationCount⟩ _ ⟨F c R, st.iterationCount + 1⟩
      (execStep_refine_ok B F ⟨c, st.iterationCount⟩ o1 o2 R hc hR)]
  simp

/-- Witness for C5 (amended) at a concrete extract-then-refine run. -/
theorem c5_roundtrip_verbatim_witness :
    runSteps Bok refineConst
        (⟨"extractCode", .str ".ui"⟩ :: ⟨"refineCode", .obj none none (some "r")⟩ :: [])
        ⟨"", 0⟩ =
      ([.extracted (.str ".ui") "<div>UI</div>",
        .writeFile "extracted_ui.html" "<div>UI</div>",
        .refineCall "<div>UI</div>" "r",
        .writeFile (refinedName 1) "<div class=\x22r\x22>UI</div>"] ++
          (runSteps Bok refineConst [] ⟨"<div class=\x22r\x22>UI</div>", 1⟩).1,
        (runSteps Bok refineConst [] ⟨"<div class=\x22r\x22>UI</div>", 1⟩).2) :=
  c5_roundtrip_verbatim Bok refineConst ⟨"", 0⟩ ".ui" "r" "<div>UI</div>" none none []
    rfl (by decide) (by decide)

/-- Claim C3: starting from the fresh state, `iterationCount` counts exactly
the Refinement Provider calls made (one per successful `refineCode`), the
refinement artifacts written are `refined_ui_iteration_1 … refined_ui_iteration_n`
in increasing order (so the counter is never decremented or reset), and
their filenames are pairwise distinct. -/
theorem c3_iteration_counter_artifacts (B : Browser) (F : String → String → String)
    (steps : List Step) (evs : List Event) (r : Except String RunState)
    (h : runSteps B F steps ⟨"", 0⟩ = (evs, r)) :
    ∃ n, refinedWrites evs = iterNames 0 n ∧
      (refinedWrites evs).Nodup ∧
      countRefineCalls evs = n ∧
      ∀ st', r = .ok st' → st'.iterationCount = n := by
  obtain ⟨n, h1, h2, _, h4⟩ := runSteps_writes B F steps ⟨"", 0⟩ evs r h
  refine ⟨n, h1, ?_, h2, fun st' hst => by simpa using h4 st' hst⟩
  rw [h1]
  exact iterNames_nodup n 0

/-- Witness for C3 at a concrete extraction-plus-two-refinements run. -/
theorem c3_iteration_counter_artifacts_witness :
    ∃ n,
      refinedWrites (runSteps Bok refineConst stepsOneExtractTwoRefines ⟨"", 0⟩).1 =
        iterNames 0 n ∧
      (refinedWrites (runSteps Bok refineConst stepsOneExtractTwoRefines ⟨"", 0⟩).1).Nodup ∧
      countRefineCalls (runSteps Bok refineConst stepsOneExtractTwoRefines ⟨"", 0⟩).1 = n ∧
      ∀ st', (runSteps Bok refineConst stepsOneExtractTwoRefines ⟨"", 0⟩).2 = .ok st' →
        st'.iterationCount = n :=
  c3_iteration_counter_artifacts Bok refineConst stepsOneExtractTwoRefines
    (runSteps Bok refineConst stepsOneExtractTwoRefines ⟨"", 0⟩).1
    (runSteps Bok refineConst stepsOneExtractTwoRefines ⟨"", 0⟩).2 rfl

/-- Counterexample to claim C7 as stated: with two `extractCode` steps the
run writes the fixed name `extracted_ui.html` twice (names collide), and
the file ends up holding the second extracted code `"<b>"`, not the first
extracted code `"<a>"`. -/
theorem c7_extract_file_overwritten :
    writeNames (runSteps Btwo refineConst stepsTwoExtracts ⟨"", 0⟩).1 =
      ["extracted_ui.html", "extracted_ui.html"] ∧
    ¬ (writeNames (runSteps Btwo refineConst stepsTwoExtracts ⟨"", 0⟩).1).Nodup ∧
    extractWrites (runSteps Btwo refineConst stepsTwoExtracts ⟨"", 0⟩).1 = ["<a>", "<b>"] ∧
    (runSteps Btwo refineConst stepsTwoExtracts ⟨"", 0⟩).2 = .ok ⟨"<b>", 0⟩ :=
  ⟨rfl, by decide, rfl, rfl⟩

/-- Claim C7 (amended): the files persisted by a run are exactly the fixed
extraction file `extracted_ui.html` — written once per successful
`extractCode`, its successive contents being exactly the successively
extracted codes, so it finally holds the most recent extraction — plus one
distinctly-named file `refined_ui_iteration_j` per successful refinement
iteration `j = 1 … n`; refinement artifact naming is deterministic and
collision-free. -/
theorem c7_artifact_characterization (B : Browser) (F : String → String → String)
    (steps : List Step) (evs : List Event) (r : Except String RunState)
    (h : runSteps B F steps ⟨"", 0⟩ = (evs, r)) :
    ∃ n, extractWrites evs = extractedCodes evs ∧
      refinedWrites evs = iterNames 0 n ∧
      (refinedWrites evs).Nodup ∧
      (∀ nm ∈ writeNames evs,
        nm = "extracted_ui.html" ∨ ∃ j, 1 ≤ j ∧ j ≤ n ∧ nm = refinedName j) ∧
      ∀ st', r = .ok st' → st'.iterationCount = n := by
  obtain ⟨n, h1, h2, h3, h4⟩ := runSteps_writes B F steps ⟨"", 0⟩ evs r h
  refine ⟨n, h3, h1, ?_, ?_, fun st' hst => by simpa using h4 st' hst⟩
  · rw [h1]
    exact iterNames_nodup n 0
  · intro nm hnm
    by_cases hx : nm = "extracted_ui.html"
    · exact Or.inl hx
    · right
      have hmem : nm ∈ refinedWrites evs := by
        rw [refinedWrites]
        exact List.mem_filter.mpr ⟨hnm, by simp [hx]⟩
      rw [h1] at hmem
      obtain ⟨j, hj1, hj2, hj3⟩ := mem_iterNames nm n 0 hmem
      exact ⟨j, by omega, by omega, hj3⟩

/-- Witness for C7 (amended) at the two-extraction run. -/
theorem c7_artifact_characterization_witness :
    ∃ n,
      extractWrites (runSteps Btwo refineConst stepsTwoExtracts ⟨"", 0⟩).1 =
        extractedCodes (runSteps Btwo refineConst stepsTwoExtracts ⟨"", 0⟩).1 ∧
      refinedWrites (runSteps Btwo refineConst stepsTwoExtracts ⟨"", 0⟩).1 = iterNames 0 n ∧
      (refinedWrites (runSteps Btwo refineConst stepsTwoExtracts ⟨"", 0⟩).1).Nodup ∧
      (∀ nm ∈ writeNames (runSteps Btwo refineConst stepsTwoExtracts ⟨"", 0⟩).1,
        nm = "extracted_ui.html" ∨ ∃ j, 1 ≤ j ∧ j ≤ n ∧ nm = refinedName j) ∧
      ∀ st', (runSteps Btwo refineConst stepsTwoExtracts ⟨"", 0⟩).2 = .ok st' →
        st'.iterationCount = n :=
  c7_artifact_characterization Btwo refineConst stepsTwoExtracts
    (runSteps Btwo refineConst stepsTwoExtracts ⟨"", 0⟩).1
    (runSteps Btwo refineConst stepsTwoExtracts ⟨"", 0⟩).2 rfl

/-- Counterexample to claim C6 as stated: on an upstream-format error the
provider layer returns `""`; the `refineCode` step then overwrites the
non-empty `currentCode` with `""`, increments `iterationCount` and writes
an (empty) artifact, instead of leaving the state unchanged. -/
theorem c6_upstream_error_mutates_state :
    refineUICode chatNone "<div>old</div>" "polish" = "" ∧
      execStep Bok (refineUICode chatNone) ⟨"<div>old</div>", 0⟩
          ⟨"refineCode", .obj none none (some "polish")⟩ =
        ([.refineCall "<div>old</div>" "polish",
          .writeFile "refined_ui_iteration_1.html" ""],
          .ok ⟨"", 1⟩) ∧
      ("" : String) ≠ "<div>old</div>" ∧ (1 : Nat) ≠ 0 :=
  ⟨rfl, rfl, by decide, by decide⟩

/-- Claim C6 (amended): when the chat response behind the Refinement
Provider lacks the expected content structure during a `refineCode` step
(with non-empty `currentCode` and a well-formed refinement), the provider
yields `""`; the step completes normally (the run is not aborted) but
`currentCode` is overwritten with the empty string, `iterationCount` is
incremented, and an empty artifact file is written. -/
theorem c6_upstream_error_behavior (chat : String → Option String) (B : Browser)
    (st : RunState) (o1 o2 : Option String) (rf : String)
    (hcc : st.currentUIcode ≠ "") (hrf : rf ≠ "")
    (hchat : chat (refinePrompt st.currentUIcode rf) = none) :
    execStep B (refineUICode chat) st ⟨"refineCode", .obj o1 o2 (some rf)⟩ =
      ([.refineCall st.currentUIcode rf,
        .writeFile (refinedName (st.iterationCount + 1)) ""],
        .ok ⟨"", st.iterationCount + 1⟩) := by
  have hF : refineUICode chat st.currentUIcode rf = "" := by
    rw [refineUICode, hchat]
    rfl
  have h := execStep_refine_ok B (refineUICode chat) st o1 o2 rf hcc hrf
  rw [hF] at h
  exact h

/-- Witness for C6 (amended) at a concrete state and refinement. -/
theorem c6_upstream_error_behavior_witness :
    execStep Bok (refineUICode chatNone) ⟨"<x>", 2⟩
        ⟨"refineCode", .obj none none (some "mod")⟩ =
      ([.refineCall "<x>" "mod", .writeFile (refinedName 3) ""], .ok ⟨"", 3⟩) :=
  c6_upstream_error_behavior chatNone Bok ⟨"<x>", 2⟩ none none "mod"
    (by decide) (by decide) rfl

/-- Counterexample to claim C9 as stated: a run that terminates with an
instruction-generation parse failure still yields exit status `0` — the
top-level `catch` only logs the error. -/
theorem c9_exit_zero_on_failure :
    runBrowserAgent (.error "Invalid JSON from LLM") Bok refineConst =
      ([], .error "Invalid JSON from LLM") ∧
    runDriver (.error "Invalid JSON from LLM") Bok refineConst =
      ([Event.errorLog "Invalid JSON from LLM"], 0) :=
  ⟨rfl, rfl⟩

/-- Claim C9 (amended): the exit status is `0` both on successful
completion and on failure; a failing run is indicated only by the logged
error message, never by a non-zero exit status. -/
theorem c9_exit_code_always_zero (gen : Except String (List Step)) (B : Browser)
    (F : String → String → String) :
    (runDriver gen B F).2 = 0 ∧
      ∀ e, (runBrowserAgent gen B F).2 = .error e →
        Event.errorLog e ∈ (runDriver gen B F).1 := by
  rcases hb : runBrowserAgent gen B F with ⟨evs, r⟩
  cases r with
  | ok st =>
    refine ⟨by simp [runDriver, hb], fun e he => ?_⟩
    simp at he
  | error e0 =>
    refine ⟨by simp [runDriver, hb], fun e he => ?_⟩
    simp at he
    subst he
    simp [runDriver, hb]

/-- Witness for C9 (amended) at a concrete failing generation. -/
theorem c9_exit_code_always_zero_witness :
    (runDriver (.error "Invalid JSON from LLM") Bclickfail refineConst).2 = 0 ∧
      ∀ e, (runBrowserAgent (.error "Invalid JSON from LLM") Bclickfail refineConst).2 =
          .error e →
        Event.errorLog e ∈
          (runDriver (.error "Invalid JSON from LLM") Bclickfail refineConst).1 :=
  c9_exit_code_always_zero (.error "Invalid JSON from LLM") Bclickfail refineConst
